import Mathlib

/-!
Verification of the cryptographic session / messaging engine of a
peer-to-peer E2E chat client (sources: `src/lib/crypto.ts`,
`src/lib/topics.ts`, `src/lib/ratchet.ts`, `src/store/chatStore.ts`).

The cryptographic primitives (HMAC-SHA256, HKDF, PBKDF2, keccak-256,
AES-GCM, xsalsa20-poly1305) are modelled symbolically: each primitive is a
free constructor of an inductive type of byte strings, which idealises the
primitives as deterministic and collision-free, and AEAD opening succeeds
exactly on a well-formed sealed term with matching key and nonce.  All
counters are natural numbers (the TypeScript sources only ever produce
non-negative integral counters).
-/

/-- Decrypted inner JSON payloads of dm messages (the `{kind, ...}`
objects of `chatStore.ts`).  Only the `text` branch carries fields the
claims inspect; every other inner kind is represented by its kind tag. -/
inductive InnerPayload where
  | text : String → Option String → InnerPayload
  | event : String → InnerPayload
  deriving DecidableEq, Repr

/-- Symbolic byte strings.  Each constructor records one way the
TypeScript sources produce a byte string; hash-like primitives are free
constructors (collision-free idealisation). -/
inductive Bytes where
  /-- UTF-8 bytes of a string (`stringToBytes` from `src/lib/encoding.ts`). -/
  | utf8 : String → Bytes
  /-- Bytes decoded from a base58 chat-key (`base58ToBytes`). -/
  | base58 : String → Bytes
  /-- An output of the CSPRNG (`randomBytes`), labelled by a draw index. -/
  | random : Nat → Bytes
  /-- `hmacSha256(key, data)` from `src/lib/crypto.ts`. -/
  | hmac : Bytes → Bytes → Bytes
  /-- `hkdf(ikm, salt, info, length)` from `src/lib/crypto.ts`. -/
  | hkdfRun : Bytes → Bytes → Bytes → Nat → Bytes
  /-- PBKDF2-SHA256 key derivation over (passphrase bytes, salt). -/
  | kdf : Bytes → Bytes → Bytes
  /-- AES-256-GCM sealed box `gcmSeal key iv plaintext`. -/
  | gcmSeal : Bytes → Bytes → Bytes → Bytes
  /-- `nacl.secretbox(msg, nonce, key)` sealed box. -/
  | secretSeal : Bytes → Bytes → Bytes → Bytes
  /-- `nacl.box.before(peerPub, mySecret)` shared secret. -/
  | shared : Bytes → Bytes → Bytes
  /-- `encodePayload` of an inner payload (UTF-8 of `JSON.stringify`,
  injective on the payloads the engine produces). -/
  | inner : InnerPayload → Bytes
  deriving DecidableEq, Repr

/-- A base64-encoded byte string.  Base64 is a bijection onto its range, so
it is modelled as a tagged identity (`bytesToBase64` / `base64ToBytes` from
`src/lib/encoding.ts` are mutually inverse on all values the engine
produces). -/
structure B64 where
  bytes : Bytes
  deriving DecidableEq, Repr

/-- `bytesToBase64` from `src/lib/encoding.ts` (modelled as the tagging
injection). -/
def bytesToBase64 (b : Bytes) : B64 := ⟨b⟩

/-- `base64ToBytes` from `src/lib/encoding.ts` (modelled as the inverse
projection). -/
def base64ToBytes (s : B64) : Bytes := s.bytes

theorem base64_roundtrip (b : Bytes) : base64ToBytes (bytesToBase64 b) = b := rfl

/-- `stringToBytes` from `src/lib/encoding.ts`: UTF-8 encoding, injective. -/
def stringToBytes (s : String) : Bytes := Bytes.utf8 s

/-- `base58ToBytes` from `src/lib/encoding.ts`, modelled symbolically. -/
def base58ToBytes (s : String) : Bytes := Bytes.base58 s

/-- `hmacSha256` from `src/lib/crypto.ts`.  Both the WebCrypto and the
noble code paths compute the same HMAC-SHA256; it is modelled once as a
free constructor. -/
def hmacSha256 (keyBytes data : Bytes) : Bytes := Bytes.hmac keyBytes data

/-- `hkdf` from `src/lib/crypto.ts` (HKDF-SHA256, both code paths). -/
def hkdf (ikm salt info : Bytes) (length : Nat) : Bytes :=
  Bytes.hkdfRun ikm salt info length

/-- `deriveAesKeyBytes` from `src/lib/crypto.ts`: PBKDF2-SHA256 with
120000 iterations over (UTF-8 passphrase, salt).  The WebCrypto
`deriveAesKey` path derives the same key; both are modelled by the `kdf`
constructor. -/
def deriveAesKeyBytes (passphrase : String) (salt : Bytes) : Bytes :=
  Bytes.kdf (stringToBytes passphrase) salt

/-- Result envelope of `encryptWithPassphrase` from `src/lib/crypto.ts`
(the `{ciphertext, iv, salt}` record, each field base64). -/
structure PassphraseEnvelope where
  ciphertext : B64
  iv : B64
  salt : B64
  deriving DecidableEq, Repr

/-- `encryptWithPassphrase` from `src/lib/crypto.ts`.  The two calls to
`randomBytes` (16-byte salt, 12-byte IV) are modelled by passing the
sampled values explicitly; AES-256-GCM sealing is the free `gcmSeal`
constructor. -/
def encryptWithPassphrase (data : Bytes) (passphrase : String)
    (salt iv : Bytes) : PassphraseEnvelope :=
  let keyBytes := deriveAesKeyBytes passphrase salt
  { ciphertext := bytesToBase64 (Bytes.gcmSeal keyBytes iv data)
    iv := bytesToBase64 iv
    salt := bytesToBase64 salt }

/-- AES-GCM opening: succeeds exactly on a sealed term with matching key
and IV (perfect-integrity idealisation of the authentication tag). -/
def gcmOpen (keyBytes iv ciphertext : Bytes) : Option Bytes :=
  match ciphertext with
  | Bytes.gcmSeal k i d => if k = keyBytes ∧ i = iv then some d else none
  | _ => none

/-- `decryptWithPassphrase` from `src/lib/crypto.ts`.  `none` models the
thrown tag-mismatch error (surfaced as `BadPassphrase`); a `some` result
is the recovered plaintext. -/
def decryptWithPassphrase (payload : PassphraseEnvelope)
    (passphrase : String) : Option Bytes :=
  let salt := base64ToBytes payload.salt
  let iv := base64ToBytes payload.iv
  let ciphertext := base64ToBytes payload.ciphertext
  let keyBytes := deriveAesKeyBytes passphrase salt
  gcmOpen keyBytes iv ciphertext

/-- `nacl.secretbox(msg, nonce, key)`: free sealing constructor. -/
def secretbox (msg nonce key : Bytes) : Bytes := Bytes.secretSeal key nonce msg

/-- `nacl.secretbox.open(ciphertext, nonce, key)`: succeeds exactly on a
sealed term with matching key and nonce. -/
def secretboxOpen (ciphertext nonce key : Bytes) : Option Bytes :=
  match ciphertext with
  | Bytes.secretSeal k n m => if k = key ∧ n = nonce then some m else none
  | _ => none

/-- Symbolic UTF-8-to-string decoding (`bytesToString`): inverse of
`stringToBytes` on its range, a placeholder elsewhere. -/
def bytesToString (b : Bytes) : String :=
  match b with
  | Bytes.utf8 s => s
  | _ => ""

/- ## Topic derivation (`src/lib/topics.ts`) -/

/-- viem `stringToHex`: hex of the UTF-8 bytes, 0x-prefixed; injective,
modelled symbolically. -/
def stringToHex (s : String) : String := "0x<utf8-hex>" ++ s

/-- viem `toHex` on raw bytes, 0x-prefixed; injective, modelled
symbolically via `Repr` of the symbolic bytes. -/
def toHex (b : Bytes) : String := "0x<hex>" ++ reprStr b

/-- viem `keccak256` over a hex-encoded input, returning a 0x-prefixed hex
digest.  Modelled as an injective tag (collision-free idealisation); the
claims only use determinism and injectivity of the digest. -/
def keccak256 (hexInput : String) : String := "0x<keccak256>" ++ hexInput

/-- `stripHexPrefix` from `src/lib/topics.ts` (drops a leading "0x"). -/
def stripHex0x (value : String) : String :=
  if value.startsWith "0x" then value.drop 2 else value

/-- `inboxTopic` from `src/lib/topics.ts`. -/
def inboxTopic (publicKey : Bytes) : String :=
  "/app/1/inbox/" ++ stripHex0x (keccak256 (toHex publicKey))

/-- JavaScript `[a, b].sort()` for two strings: the default comparator
orders lexicographically; the Lean `String` order models it. -/
def sortPair (a b : String) : List String :=
  if a ≤ b then [a, b] else [b, a]

/-- `conversationIdFromPubKeys` from `src/lib/topics.ts`: keccak-256 of the
colon-joined, lexicographically sorted pair, without the 0x prefix. -/
def conversationIdFromPubKeys (pubKeyA pubKeyB : String) : String :=
  stripHex0x (keccak256 (stringToHex (String.intercalate ":" (sortPair pubKeyA pubKeyB))))

/-- `dmTopic` from `src/lib/topics.ts`. -/
def dmTopic (conversationId : String) : String := "/app/1/dm/" ++ conversationId

/- ## Ratchet (`src/lib/ratchet.ts`) -/

/-- `ChatKind` from `src/types/chat.ts`. -/
inductive ChatKind where
  | dm
  | group
  deriving DecidableEq, Repr

/-- `SessionRecord` from `src/types/chat.ts`.  `skippedKeys` is a
`Record<string, string>` whose keys are decimal counters; JavaScript
enumerates such integer-like keys in ascending numeric order, so the map is
modelled as an association list kept sorted by key. -/
structure SessionRecord where
  conversationId : String
  kind : ChatKind
  peerPubKey : String
  sendCK : B64
  recvCK : B64
  sendN : Nat
  recvN : Nat
  skippedKeys : List (Nat × B64)
  deriving DecidableEq, Repr

/-- `skipped[String(n)]` lookup on the modelled skipped-key map. -/
def skippedLookup (n : Nat) : List (Nat × B64) → Option B64
  | [] => none
  | e :: rest => if e.1 = n then some e.2 else skippedLookup n rest

/-- `delete skipped[String(n)]` on the modelled skipped-key map. -/
def skippedErase (n : Nat) (l : List (Nat × B64)) : List (Nat × B64) :=
  l.filter (fun e => e.1 ≠ n)

/-- `skipped[String(n)] = v` on the modelled skipped-key map: set the key,
keeping the ascending integer-key enumeration order of JavaScript
objects. -/
def skippedInsert (n : Nat) (v : B64) : List (Nat × B64) → List (Nat × B64)
  | [] => [(n, v)]
  | e :: rest =>
    if n < e.1 then (n, v) :: e :: rest
    else if n = e.1 then (n, v) :: rest
    else e :: skippedInsert n v rest

/-- `MSG_LABEL` from `src/lib/ratchet.ts`. -/
def MSG_LABEL : Bytes := stringToBytes "msg"

/-- `CK_LABEL` from `src/lib/ratchet.ts`. -/
def CK_LABEL : Bytes := stringToBytes "ck"

/-- `deriveRootKey` from `src/lib/ratchet.ts`. -/
def deriveRootKey (sharedSecret : Bytes) (conversationId : String) : Bytes :=
  hkdf sharedSecret (stringToBytes conversationId) (stringToBytes "root") 32

/-- Chain-key pair returned by `deriveChainKeys`. -/
structure ChainKeys where
  sendCK : Bytes
  recvCK : Bytes
  deriving DecidableEq, Repr

/-- `deriveChainKeys` from `src/lib/ratchet.ts`. -/
def deriveChainKeys (rootKey : Bytes) (myPubKey otherPubKey : String) : ChainKeys :=
  { sendCK := hmacSha256 rootKey (stringToBytes ("send:" ++ myPubKey))
    recvCK := hmacSha256 rootKey (stringToBytes ("send:" ++ otherPubKey)) }

/-- `advanceSend` from `src/lib/ratchet.ts`. -/
def advanceSend (session : SessionRecord) : Bytes × SessionRecord :=
  let currentCK := base64ToBytes session.sendCK
  let messageKey := hmacSha256 currentCK MSG_LABEL
  let nextCK := hmacSha256 currentCK CK_LABEL
  (messageKey,
    { session with sendCK := bytesToBase64 nextCK, sendN := session.sendN + 1 })

/-- `trimSkipped` from `src/lib/ratchet.ts`: when over the cap, sort by
numeric key ascending (JavaScript's stable sort) and keep the
largest-index `maxSkipped` entries. -/
def trimSkipped (skipped : List (Nat × B64)) (maxSkipped : Nat) : List (Nat × B64) :=
  if skipped.length ≤ maxSkipped then skipped
  else
    let sorted := skipped.mergeSort (fun a b => a.1 ≤ b.1)
    sorted.drop (sorted.length - maxSkipped)

/-- The `for (let index = session.recvN; index <= n; index += 1)` loop of
`deriveReceiveKey`: `fuel = n - index` counts the remaining iterations.
Returns (derived message key at `n`, final chain key, skipped map). -/
def recvLoop (ck : Bytes) (skipped : List (Nat × B64)) (index maxSkipped : Nat) :
    Nat → Bytes × Bytes × List (Nat × B64)
  | 0 => (hmacSha256 ck MSG_LABEL, hmacSha256 ck CK_LABEL, skipped)
  | fuel + 1 =>
    let messageKey := hmacSha256 ck MSG_LABEL
    let ck2 := hmacSha256 ck CK_LABEL
    let skipped2 :=
      if skipped.length < maxSkipped then skippedInsert index (bytesToBase64 messageKey) skipped
      else skipped
    recvLoop ck2 skipped2 (index + 1) maxSkipped fuel

/-- Result record of `deriveReceiveKey` from `src/lib/ratchet.ts`. -/
structure ReceiveResult where
  messageKey : Option Bytes
  nextSession : SessionRecord
  fromCache : Bool
  deriving DecidableEq, Repr

/-- `deriveReceiveKey` from `src/lib/ratchet.ts`. -/
def deriveReceiveKey (session : SessionRecord) (n maxSkipped : Nat) : ReceiveResult :=
  if n < session.recvN then
    match skippedLookup n session.skippedKeys with
    | none => { messageKey := none, nextSession := session, fromCache := false }
    | some cached =>
      { messageKey := some (base64ToBytes cached)
        nextSession := { session with skippedKeys := skippedErase n session.skippedKeys }
        fromCache := true }
  else
    let r := recvLoop (base64ToBytes session.recvCK) session.skippedKeys
      session.recvN maxSkipped (n - session.recvN)
    { messageKey := some r.1
      nextSession := { session with
        recvCK := bytesToBase64 r.2.1
        recvN := n + 1
        skippedKeys := trimSkipped r.2.2 maxSkipped }
      fromCache := false }

/-- `MAX_SKIPPED_KEYS` from `src/store/chatStore.ts`. -/
def MAX_SKIPPED_KEYS : Nat := 50

/-- A freshly seeded session, as built by `ensureSession` /
`resetSession` in `src/store/chatStore.ts` (counters zero, empty cache). -/
def mkFreshSession (conversationId : String) (kind : ChatKind)
    (peerPubKey : String) (sendCK recvCK : Bytes) : SessionRecord :=
  { conversationId
    kind
    peerPubKey
    sendCK := bytesToBase64 sendCK
    recvCK := bytesToBase64 recvCK
    sendN := 0
    recvN := 0
    skippedKeys := [] }

/- ## Chain abstraction used to state the ratchet claims -/

/-- The receive/send chain key after `n` advancement steps from `ck`:
each step applies `HMAC(·, "ck")` as in `advanceSend` and the
`deriveReceiveKey` loop. -/
def chainCK (ck : Bytes) : Nat → Bytes
  | 0 => ck
  | n + 1 => hmacSha256 (chainCK ck n) CK_LABEL

/-- The message key at counter `n` of the chain seeded by `ck`:
`HMAC(chain key n, "msg")`. -/
def msgKey (ck : Bytes) (n : Nat) : Bytes := hmacSha256 (chainCK ck n) MSG_LABEL

/-- The list of message keys a sender obtains by calling `advanceSend`
`k` times in a row. -/
def sendKeys (s : SessionRecord) : Nat → List Bytes
  | 0 => []
  | k + 1 =>
    let r := advanceSend s
    r.1 :: sendKeys r.2 k

/-- Feed a list of wire counters through `deriveReceiveKey` (with
`maxSkipped = 50`) in arrival order, collecting the returned message keys
and the final session. -/
def receiveSequence (s : SessionRecord) : List Nat → List (Option Bytes) × SessionRecord
  | [] => ([], s)
  | c :: rest =>
    let r := deriveReceiveKey s c MAX_SKIPPED_KEYS
    let t := receiveSequence r.nextSession rest
    (r.messageKey :: t.1, t.2)

/-- The in-window condition of the mirroring claim: starting from receive
counter `recvN`, after each arrival no still-outstanding counter has
fallen more than 50 behind the receiver's `recvN`. -/
def windowOkFrom (recvN : Nat) : List Nat → Bool
  | [] => true
  | c :: rest =>
    let recvN2 := max recvN (c + 1)
    rest.all (fun r => recvN2 ≤ r + 50) && windowOkFrom recvN2 rest

/-- The skipped-key cache content predicted for a receiver at counter
segment `[lo, lo + len)`: one entry per counter in the segment that is
still outstanding (member of `rem`), in ascending order, holding the
chain's message key. -/
def pendingSeg (ck0 : Bytes) (rem : List Nat) (lo : Nat) : Nat → List (Nat × B64)
  | 0 => []
  | len + 1 =>
    (if lo ∈ rem then [(lo, bytesToBase64 (msgKey ck0 lo))] else []) ++
      pendingSeg ck0 rem (lo + 1) len

lemma pendingSeg_append (ck0 : Bytes) (rem : List Nat) (lo a b : Nat) :
    pendingSeg ck0 rem lo (a + b) =
      pendingSeg ck0 rem lo a ++ pendingSeg ck0 rem (lo + a) b := by
  induction a generalizing lo with
  | zero => simp [pendingSeg]
  | succ a ih =>
    have h1 : a + 1 + b = (a + b) + 1 := by omega
    have h2 : lo + (a + 1) = (lo + 1) + a := by omega
    rw [h1]
    show pendingSeg ck0 rem lo ((a + b) + 1) = _
    rw [pendingSeg, pendingSeg, h2, ih (lo + 1), List.append_assoc]

lemma pendingSeg_length_le (ck0 : Bytes) (rem : List Nat) (lo len : Nat) :
    (pendingSeg ck0 rem lo len).length ≤ len := by
  induction len generalizing lo with
  | zero => simp [pendingSeg]
  | succ len ih =>
    rw [pendingSeg]
    by_cases h : lo ∈ rem <;> simp [h] <;> exact Nat.le_trans (ih (lo + 1)) (by omega)

lemma pendingSeg_length_full (ck0 : Bytes) (rem : List Nat) (lo len : Nat)
    (h : ∀ j, lo ≤ j → j < lo + len → j ∈ rem) :
    (pendingSeg ck0 rem lo len).length = len := by
  induction len generalizing lo with
  | zero => simp [pendingSeg]
  | succ len ih =>
    have hlo : lo ∈ rem := h lo (Nat.le_refl lo) (by omega)
    rw [pendingSeg]
    simp only [hlo, if_pos, List.length_append, List.length_cons, List.length_nil]
    rw [ih (lo + 1) (fun j h1 h2 => h j (by omega) (by omega))]
    omega

lemma pendingSeg_congr (ck0 : Bytes) (rem1 rem2 : List Nat) (lo len : Nat)
    (h : ∀ j, lo ≤ j → j < lo + len → (j ∈ rem1 ↔ j ∈ rem2)) :
    pendingSeg ck0 rem1 lo len = pendingSeg ck0 rem2 lo len := by
  induction len generalizing lo with
  | zero => simp [pendingSeg]
  | succ len ih =>
    rw [pendingSeg, pendingSeg, ih (lo + 1) (fun j h1 h2 => h j (by omega) (by omega))]
    have hlo := h lo (Nat.le_refl lo) (by omega)
    by_cases h1 : lo ∈ rem1
    · rw [if_pos h1, if_pos (hlo.mp h1)]
    · rw [if_neg h1, if_neg (fun hc => h1 (hlo.mpr hc))]

lemma pendingSeg_eq_nil (ck0 : Bytes) (rem : List Nat) (lo len : Nat)
    (h : ∀ j, lo ≤ j → j < lo + len → j ∉ rem) :
    pendingSeg ck0 rem lo len = [] := by
  induction len generalizing lo with
  | zero => rfl
  | succ len ih =>
    rw [pendingSeg, if_neg (h lo (Nat.le_refl lo) (by omega))]
    exact ih (lo + 1) (fun j h1 h2 => h j (by omega) (by omega))

lemma pendingSeg_key_bounds (ck0 : Bytes) (rem : List Nat) (lo len : Nat) :
    ∀ e ∈ pendingSeg ck0 rem lo len, lo ≤ e.1 ∧ e.1 < lo + len := by
  induction len generalizing lo with
  | zero => simp [pendingSeg]
  | succ len ih =>
    intro e he
    rw [pendingSeg] at he
    rcases List.mem_append.mp he with h | h
    · by_cases hlo : lo ∈ rem
      · rw [if_pos hlo, List.mem_singleton] at h
        subst h; exact ⟨Nat.le_refl lo, by omega⟩
      · rw [if_neg hlo] at h; cases h
    · have := ih (lo + 1) e h
      omega

lemma skippedLookup_pendingSeg (ck0 : Bytes) (rem : List Nat) (c lo len : Nat) :
    skippedLookup c (pendingSeg ck0 rem lo len) =
      if lo ≤ c ∧ c < lo + len ∧ c ∈ rem then some (bytesToBase64 (msgKey ck0 c))
      else none := by
  induction len generalizing lo with
  | zero =>
    have h : ¬(lo ≤ c ∧ c < lo + 0 ∧ c ∈ rem) := by rintro ⟨h1, h2, -⟩; omega
    rw [if_neg h]; rfl
  | succ len ih =>
    rw [pendingSeg]
    by_cases hlo : lo ∈ rem
    · rw [if_pos hlo, List.singleton_append, skippedLookup]
      by_cases hc : lo = c
      · subst hc
        rw [if_pos rfl, if_pos ⟨Nat.le_refl lo, by omega, hlo⟩]
      · rw [if_neg hc, ih (lo + 1)]
        by_cases hin : lo + 1 ≤ c ∧ c < lo + 1 + len ∧ c ∈ rem
        · rw [if_pos hin, if_pos ⟨by omega, by omega, hin.2.2⟩]
        · rw [if_neg hin, if_neg]
          intro hcon
          exact hin ⟨by omega, by omega, hcon.2.2⟩
    · rw [if_neg hlo, List.nil_append, ih (lo + 1)]
      by_cases hin : lo + 1 ≤ c ∧ c < lo + 1 + len ∧ c ∈ rem
      · rw [if_pos hin, if_pos ⟨by omega, by omega, hin.2.2⟩]
      · rw [if_neg hin, if_neg]
        intro hcon
        rcases Nat.lt_or_ge c (lo + 1) with h | h
        · have : c = lo := by omega
          subst this; exact hlo hcon.2.2
        · exact hin ⟨h, by omega, hcon.2.2⟩

lemma skippedErase_pendingSeg (ck0 : Bytes) (rem : List Nat) (c lo len : Nat)
    (hnd : rem.Nodup) :
    skippedErase c (pendingSeg ck0 rem lo len) =
      pendingSeg ck0 (rem.erase c) lo len := by
  induction len generalizing lo with
  | zero => rfl
  | succ len ih =>
    rw [pendingSeg, pendingSeg, skippedErase, List.filter_append]
    rw [show List.filter (fun e => decide (e.1 ≠ c))
          (pendingSeg ck0 rem (lo + 1) len) =
        skippedErase c (pendingSeg ck0 rem (lo + 1) len) from rfl, ih (lo + 1)]
    congr 1
    have hmem : lo ∈ rem.erase c ↔ lo ≠ c ∧ lo ∈ rem := hnd.mem_erase_iff
    by_cases hlo : lo ∈ rem
    · rw [if_pos hlo]
      by_cases hc : lo = c
      · subst hc
        rw [if_neg (fun h => (hmem.mp h).1 rfl)]
        simp [List.filter]
      · rw [if_pos (hmem.mpr ⟨hc, hlo⟩)]
        simp [List.filter, hc]
    · rw [if_neg hlo, if_neg (fun h => hlo (hmem.mp h).2)]
      rfl

lemma skippedInsert_append_of_lt (c : Nat) (v : B64) (l : List (Nat × B64))
    (h : ∀ e ∈ l, e.1 < c) : skippedInsert c v l = l ++ [(c, v)] := by
  induction l with
  | nil => rfl
  | cons e rest ih =>
    have he := h e (List.mem_cons_self e rest)
    rw [skippedInsert, if_neg (by omega), if_neg (by omega),
      ih (fun x hx => h x (List.mem_cons_of_mem e hx)), List.cons_append]

lemma mem_skippedInsert (c : Nat) (v : B64) (l : List (Nat × B64)) :
    ∀ e ∈ skippedInsert c v l, e = (c, v) ∨ e ∈ l := by
  induction l with
  | nil =>
    intro e he
    rw [skippedInsert] at he
    exact Or.inl (List.mem_singleton.mp he)
  | cons x rest ih =>
    intro e he
    rw [skippedInsert] at he
    by_cases h1 : c < x.1
    · rw [if_pos h1] at he
      simp only [List.mem_cons] at he ⊢
      tauto
    · rw [if_neg h1] at he
      by_cases h2 : c = x.1
      · rw [if_pos h2] at he
        simp only [List.mem_cons] at he ⊢
        tauto
      · rw [if_neg h2] at he
        simp only [List.mem_cons] at he ⊢
        rcases he with he | he
        · tauto
        · rcases ih e he with h | h <;> tauto

lemma recvLoop_spec (ck0 : Bytes) (rem : List Nat) (n : Nat) :
    ∀ fuel i, i + fuel = n →
      (∀ j, i ≤ j → j < n → j ∈ rem) →
      (pendingSeg ck0 rem 0 n).length ≤ 49 →
      recvLoop (chainCK ck0 i) (pendingSeg ck0 rem 0 i) i 50 fuel =
        (msgKey ck0 n, chainCK ck0 (n + 1), pendingSeg ck0 rem 0 n) := by
  intro fuel
  induction fuel with
  | zero =>
    intro i hi _ _
    have : i = n := by omega
    subst this
    rfl
  | succ fuel ih =>
    intro i hi hmem hlen
    have hin : i < n := by omega
    have hsplit : pendingSeg ck0 rem 0 n =
        pendingSeg ck0 rem 0 i ++ pendingSeg ck0 rem (0 + i) (n - i) := by
      rw [← pendingSeg_append]
      congr 1
      omega
    have hfull : (pendingSeg ck0 rem (0 + i) (n - i)).length = n - i := by
      apply pendingSeg_length_full
      intro j h1 h2
      exact hmem j (by omega) (by omega)
    have hlt : (pendingSeg ck0 rem 0 i).length < 50 := by
      have := congrArg List.length hsplit
      rw [List.length_append, hfull] at this
      omega
    rw [recvLoop]
    simp only [hlt, if_pos]
    have hins : skippedInsert i (bytesToBase64 (hmacSha256 (chainCK ck0 i) MSG_LABEL))
        (pendingSeg ck0 rem 0 i) = pendingSeg ck0 rem 0 (i + 1) := by
      rw [skippedInsert_append_of_lt _ _ _
        (fun e he => by have := pendingSeg_key_bounds ck0 rem 0 i e he; omega)]
      rw [pendingSeg_append ck0 rem 0 i 1]
      congr 1
      rw [Nat.zero_add]
      rw [pendingSeg, if_pos (hmem i (Nat.le_refl i) hin)]
      rfl
    rw [hins]
    have := ih (i + 1) (by omega) (fun j h1 h2 => hmem j (by omega) h2) hlen
    rw [show chainCK ck0 (i + 1) = hmacSha256 (chainCK ck0 i) CK_LABEL from rfl] at this
    exact this

lemma sendKeys_spec (ck0 : Bytes) :
    ∀ (k j : Nat) (s : SessionRecord), base64ToBytes s.sendCK = chainCK ck0 j →
      sendKeys s k = (List.range' j k).map (msgKey ck0) := by
  intro k
  induction k with
  | zero => intro j s _; rfl
  | succ k ih =>
    intro j s hck
    rw [sendKeys]
    show hmacSha256 (base64ToBytes s.sendCK) MSG_LABEL :: _ = _
    rw [hck]
    have hnext : base64ToBytes (advanceSend s).2.sendCK = chainCK ck0 (j + 1) := by
      show base64ToBytes (bytesToBase64 (hmacSha256 (base64ToBytes s.sendCK) CK_LABEL)) = _
      rw [base64_roundtrip, hck]
      rfl
    rw [ih (j + 1) (advanceSend s).2 hnext]
    rfl

lemma receiveSequence_spec (ck0 : Bytes) (k : Nat) :
    ∀ (arr : List Nat) (s : SessionRecord),
      base64ToBytes s.recvCK = chainCK ck0 s.recvN →
      s.skippedKeys = pendingSeg ck0 arr 0 s.recvN →
      arr.Nodup →
      (∀ j ∈ arr, j < k) →
      (∀ j, s.recvN ≤ j → j < k → j ∈ arr) →
      windowOkFrom s.recvN arr = true →
      (receiveSequence s arr).1 = arr.map (fun c => some (msgKey ck0 c)) := by
  intro arr
  induction arr with
  | nil => intro s _ _ _ _ _ _; rfl
  | cons c rest ih =>
    intro s hck hsk hnd hbound hcover hwin
    rw [windowOkFrom] at hwin
    simp only [Bool.and_eq_true, List.all_eq_true, decide_eq_true_eq] at hwin
    obtain ⟨hwin1, hwin2⟩ := hwin
    have hck' : c < k := hbound c (List.mem_cons_self c rest)
    rw [receiveSequence]
    by_cases hc : c < s.recvN
    · -- late arrival: served from the skipped-key cache
      have hmax : max s.recvN (c + 1) = s.recvN := by omega
      rw [hmax] at hwin1 hwin2
      have hlook : skippedLookup c s.skippedKeys =
          some (bytesToBase64 (msgKey ck0 c)) := by
        rw [hsk, skippedLookup_pendingSeg]
        rw [if_pos ⟨Nat.zero_le c, by omega, List.mem_cons_self c rest⟩]
      have hr : deriveReceiveKey s c MAX_SKIPPED_KEYS =
          { messageKey := some (msgKey ck0 c)
            nextSession := { s with skippedKeys := skippedErase c s.skippedKeys }
            fromCache := true } := by
        rw [deriveReceiveKey, if_pos hc, hlook]
        rfl
      rw [hr]
      have hsk' : skippedErase c s.skippedKeys = pendingSeg ck0 rest 0 s.recvN := by
        rw [hsk, skippedErase_pendingSeg ck0 (c :: rest) c 0 s.recvN hnd,
          List.erase_cons_head]
      have hrec := ih { s with skippedKeys := skippedErase c s.skippedKeys }
        hck hsk' (List.Nodup.of_cons hnd)
        (fun j hj => hbound j (List.mem_cons_of_mem c hj))
        (fun j h1 h2 => by
          have h1' : s.recvN ≤ j := h1
          rcases List.mem_cons.mp (hcover j h1' h2) with h | h
          · omega
          · exact h)
        hwin2
      dsimp only
      rw [hrec]
      rfl
    · -- in-order or ahead: derived by advancing the receive chain
      push_neg at hc
      have hmax : max s.recvN (c + 1) = c + 1 := by omega
      rw [hmax] at hwin1 hwin2
      have hmem : ∀ j, s.recvN ≤ j → j < c → j ∈ (c :: rest) :=
        fun j h1 h2 => hcover j h1 (by omega)
      have hlen : (pendingSeg ck0 (c :: rest) 0 c).length ≤ 49 := by
        have hnil : pendingSeg ck0 (c :: rest) 0 (c - 49) = [] := by
          apply pendingSeg_eq_nil
          intro j _ hj hmemj
          rcases List.mem_cons.mp hmemj with h | h
          · omega
          · have := hwin1 j h
            omega
        have hsplit : pendingSeg ck0 (c :: rest) 0 c =
            pendingSeg ck0 (c :: rest) 0 (c - 49) ++
              pendingSeg ck0 (c :: rest) (0 + (c - 49)) (c - (c - 49)) := by
          rw [← pendingSeg_append]
          congr 1
          omega
        rw [hsplit, hnil, List.nil_append]
        have := pendingSeg_length_le ck0 (c :: rest) (0 + (c - 49)) (c - (c - 49))
        omega
      have hloop := recvLoop_spec ck0 (c :: rest) c (c - s.recvN) s.recvN
        (by omega) hmem hlen
      have hr : deriveReceiveKey s c MAX_SKIPPED_KEYS =
          { messageKey := some (msgKey ck0 c)
            nextSession := { s with
              recvCK := bytesToBase64 (chainCK ck0 (c + 1))
              recvN := c + 1
              skippedKeys := pendingSeg ck0 (c :: rest) 0 c }
            fromCache := false } := by
        rw [deriveReceiveKey, if_neg (by omega), hck, hsk]
        simp only [MAX_SKIPPED_KEYS]
        rw [hloop]
        have htrim : trimSkipped (pendingSeg ck0 (c :: rest) 0 c) 50 =
            pendingSeg ck0 (c :: rest) 0 c := by
          rw [trimSkipped, if_pos (show (pendingSeg ck0 (c :: rest) 0 c).length ≤ 50
            by omega)]
        dsimp only
        rw [htrim]
      rw [hr]
      have hsk' : pendingSeg ck0 (c :: rest) 0 c = pendingSeg ck0 rest 0 (c + 1) := by
        have h1 : pendingSeg ck0 (c :: rest) 0 c = pendingSeg ck0 rest 0 c := by
          apply pendingSeg_congr
          intro j _ hj
          simp only [List.mem_cons]
          constructor
          · rintro (h | h)
            · omega
            · exact h
          · exact Or.inr
        have h2 : pendingSeg ck0 rest 0 (c + 1) = pendingSeg ck0 rest 0 c := by
          rw [pendingSeg_append ck0 rest 0 c 1]
          have hn : pendingSeg ck0 rest (0 + c) 1 = [] := by
            apply pendingSeg_eq_nil
            intro j hj1 hj2 hjm
            have : j = c := by omega
            subst this
            exact (List.nodup_cons.mp hnd).1 hjm
          rw [hn, List.append_nil]
        rw [h1, h2]
      have hrec := ih { s with
          recvCK := bytesToBase64 (chainCK ck0 (c + 1))
          recvN := c + 1
          skippedKeys := pendingSeg ck0 (c :: rest) 0 c }
        rfl hsk' (List.Nodup.of_cons hnd)
        (fun j hj => hbound j (List.mem_cons_of_mem c hj))
        (fun j h1 h2 => by
          have h1' : c + 1 ≤ j := h1
          rcases List.mem_cons.mp (hcover j (by omega) h2) with h | h
          · omega
          · exact h)
        hwin2
      dsimp only
      rw [hrec]
      rfl

/-- C4: Conversation-identifier symmetry: for every pair of public-key
strings A and B, `conversationIdFromPubKeys(A, B)` equals
`conversationIdFromPubKeys(B, A)`, because the pair is sorted
lexicographically before hashing. -/
theorem conversationId_symmetric (a b : String) :
    conversationIdFromPubKeys a b = conversationIdFromPubKeys b a := by
  have hs : sortPair a b = sortPair b a := by
    rw [sortPair, sortPair]
    rcases le_total a b with h | h
    · by_cases h2 : b ≤ a
      · have : a = b := le_antisymm h h2
        subst this; rfl
      · rw [if_pos h, if_neg h2]
    · by_cases h2 : a ≤ b
      · have : a = b := le_antisymm h2 h
        subst this; rfl
      · rw [if_neg h2, if_pos h]
  rw [conversationIdFromPubKeys, conversationIdFromPubKeys, hs]

/-- C5: Fresh-session chain mirroring: for every root key and pair of
public keys A, B, `deriveChainKeys(root, A, B).sendCK` equals
`deriveChainKeys(root, B, A).recvCK` and `deriveChainKeys(root, A,
B).recvCK` equals `deriveChainKeys(root, B, A).sendCK`, because `sendCK =
HMAC(rootKey, "send:" + myPub)` and `recvCK = HMAC(rootKey, "send:" +
peerPub)`. -/
theorem chain_keys_mirror (root : Bytes) (a b : String) :
    (deriveChainKeys root a b).sendCK = (deriveChainKeys root b a).recvCK ∧
    (deriveChainKeys root a b).recvCK = (deriveChainKeys root b a).sendCK ∧
    (deriveChainKeys root a b).sendCK =
      hmacSha256 root (stringToBytes ("send:" ++ a)) ∧
    (deriveChainKeys root a b).recvCK =
      hmacSha256 root (stringToBytes ("send:" ++ b)) :=
  ⟨rfl, rfl, rfl, rfl⟩

set_option maxHeartbeats 1600000 in
/-- C1: Ratchet mirroring under out-of-order arrival: if A's session and
B's session are seeded with mirrored chain keys (`A.sendCK = B.recvCK =
ck0`), A derives its k send keys via `advanceSend` at counters 0..k-1,
and B feeds any permutation of those counters through `deriveReceiveKey`
(`maxSkipped = 50`) such that no still-outstanding counter ever falls
more than 50 behind B's `recvN`, then B obtains the matching message key
for every counter; in particular for k = 4 received in order 2,0,3,1 all
four keys are returned, B's `recvN` ends at 4 and B's `skippedKeys` is
empty after counter 1 is consumed. -/
theorem ratchet_mirroring_out_of_order (ck0 rckA sckB : Bytes)
    (cidA cidB peerA peerB : String) (k : Nat) (order : List Nat)
    (hperm : List.Perm order (List.range k))
    (hwin : windowOkFrom 0 order = true) :
    sendKeys (mkFreshSession cidA ChatKind.dm peerA ck0 rckA) k =
      (List.range k).map (msgKey ck0) ∧
    (receiveSequence (mkFreshSession cidB ChatKind.dm peerB sckB ck0) order).1 =
      order.map (fun c => some (msgKey ck0 c)) ∧
    (receiveSequence (mkFreshSession cidB ChatKind.dm peerB sckB ck0) [2, 0, 3, 1]).1 =
      [some (msgKey ck0 2), some (msgKey ck0 0), some (msgKey ck0 3),
        some (msgKey ck0 1)] ∧
    (receiveSequence (mkFreshSession cidB ChatKind.dm peerB sckB ck0) [2, 0, 3, 1]).2.recvN
      = 4 ∧
    (receiveSequence (mkFreshSession cidB ChatKind.dm peerB sckB ck0)
      [2, 0, 3, 1]).2.skippedKeys = [] := by
  refine ⟨?_, ?_, rfl, rfl, rfl⟩
  · rw [sendKeys_spec ck0 k 0 (mkFreshSession cidA ChatKind.dm peerA ck0 rckA) rfl,
      List.range_eq_range']
  · exact receiveSequence_spec ck0 k order
      (mkFreshSession cidB ChatKind.dm peerB sckB ck0) rfl rfl
      ((hperm.nodup_iff).mpr (List.nodup_range k))
      (fun j hj => List.mem_range.mp (hperm.mem_iff.mp hj))
      (fun j _ hj => hperm.mem_iff.mpr (List.mem_range.mpr hj))
      hwin

/-- Witness for `ratchet_mirroring_out_of_order`: k = 4 with arrival
order 2,0,3,1, which is a permutation of 0..3 and stays inside the
50-key window. -/
theorem ratchet_mirroring_out_of_order_witness :
    List.Perm [2, 0, 3, 1] (List.range 4) ∧ windowOkFrom 0 [2, 0, 3, 1] = true ∧
    (receiveSequence (mkFreshSession "cid" ChatKind.dm "peer"
        (Bytes.utf8 "sck") (Bytes.utf8 "ck0")) [2, 0, 3, 1]).1 =
      [2, 0, 3, 1].map (fun c => some (msgKey (Bytes.utf8 "ck0") c)) :=
  ⟨by decide, by decide,
    (ratchet_mirroring_out_of_order (Bytes.utf8 "ck0") (Bytes.utf8 "rck")
      (Bytes.utf8 "sck") "cidA" "cid" "peerA" "peer" 4 [2, 0, 3, 1]
      (by decide) (by decide)).2.1⟩

lemma pendingSeg_map_fst (ck0 : Bytes) (rem : List Nat) (lo len : Nat)
    (h : ∀ j, lo ≤ j → j < lo + len → j ∈ rem) :
    (pendingSeg ck0 rem lo len).map Prod.fst = List.range' lo len := by
  induction len generalizing lo with
  | zero => rfl
  | succ len ih =>
    rw [pendingSeg, if_pos (h lo (Nat.le_refl lo) (by omega)), List.singleton_append,
      List.map_cons]
    rw [ih (lo + 1) (fun j h1 h2 => h j (by omega) (by omega))]
    rfl

lemma recvLoop_full (ck0 : Bytes) (skipped : List (Nat × B64))
    (hlen : ¬ skipped.length < 50) :
    ∀ fuel i, recvLoop (chainCK ck0 i) skipped i 50 fuel =
      (msgKey ck0 (i + fuel), chainCK ck0 (i + fuel + 1), skipped) := by
  intro fuel
  induction fuel with
  | zero => intro i; rfl
  | succ fuel ih =>
    intro i
    rw [recvLoop, if_neg hlen]
    have h := ih (i + 1)
    rw [show i + 1 + fuel = i + (fuel + 1) by omega] at h
    exact h

lemma recvLoop_fill (ck0 : Bytes) (n : Nat) (hn : 50 ≤ n) :
    ∀ fuel i, i + fuel = n → i ≤ 50 →
      recvLoop (chainCK ck0 i) (pendingSeg ck0 (List.range 50) 0 i) i 50 fuel =
        (msgKey ck0 n, chainCK ck0 (n + 1), pendingSeg ck0 (List.range 50) 0 50) := by
  intro fuel
  induction fuel with
  | zero =>
    intro i hi hle
    have hn50 : n = 50 := by omega
    have hi50 : i = 50 := by omega
    subst hn50
    subst hi50
    rfl
  | succ fuel ih =>
    intro i hi hle
    by_cases hi50 : i < 50
    · have hfull : (pendingSeg ck0 (List.range 50) 0 i).length = i :=
        pendingSeg_length_full ck0 (List.range 50) 0 i
          (fun j h1 h2 => List.mem_range.mpr (by omega))
      rw [recvLoop, if_pos (by rw [hfull]; exact hi50)]
      have hins : skippedInsert i (bytesToBase64 (hmacSha256 (chainCK ck0 i) MSG_LABEL))
          (pendingSeg ck0 (List.range 50) 0 i) =
            pendingSeg ck0 (List.range 50) 0 (i + 1) := by
        rw [skippedInsert_append_of_lt _ _ _
          (fun e he => by
            have := pendingSeg_key_bounds ck0 (List.range 50) 0 i e he
            omega)]
        rw [pendingSeg_append ck0 (List.range 50) 0 i 1]
        congr 1
        rw [Nat.zero_add, pendingSeg, if_pos (List.mem_range.mpr hi50)]
        rfl
      rw [hins]
      exact ih (i + 1) (by omega) (by omega)
    · have h50 : i = 50 := by omega
      subst h50
      have hlen : ¬ (pendingSeg ck0 (List.range 50) 0 50).length < 50 := by
        rw [pendingSeg_length_full ck0 (List.range 50) 0 50
          (fun j h1 h2 => List.mem_range.mpr (by omega))]
        omega
      have h := recvLoop_full ck0 (pendingSeg ck0 (List.range 50) 0 50) hlen (fuel + 1) 50
      rw [show 50 + (fuel + 1) = n by omega] at h
      exact h

lemma deriveReceiveKey_fresh_59 (ck0 sck : Bytes) (cid peer : String) :
    deriveReceiveKey (mkFreshSession cid ChatKind.dm peer sck ck0) 59 50 =
      { messageKey := some (msgKey ck0 59)
        nextSession := { mkFreshSession cid ChatKind.dm peer sck ck0 with
          recvCK := bytesToBase64 (chainCK ck0 60)
          recvN := 60
          skippedKeys := pendingSeg ck0 (List.range 50) 0 50 }
        fromCache := false } := by
  have hfill : recvLoop
      (base64ToBytes (mkFreshSession cid ChatKind.dm peer sck ck0).recvCK)
      (mkFreshSession cid ChatKind.dm peer sck ck0).skippedKeys
      (mkFreshSession cid ChatKind.dm peer sck ck0).recvN 50
      (59 - (mkFreshSession cid ChatKind.dm peer sck ck0).recvN) =
      (msgKey ck0 59, chainCK ck0 60, pendingSeg ck0 (List.range 50) 0 50) :=
    recvLoop_fill ck0 59 (by omega) 59 0 (by omega) (by omega)
  rw [deriveReceiveKey,
    if_neg (show ¬ 59 < (mkFreshSession cid ChatKind.dm peer sck ck0).recvN
      from Nat.not_lt_zero 59)]
  rw [hfill]
  have htrim : trimSkipped (pendingSeg ck0 (List.range 50) 0 50) 50 =
      pendingSeg ck0 (List.range 50) 0 50 := by
    rw [trimSkipped, if_pos]
    rw [pendingSeg_length_full ck0 (List.range 50) 0 50
      (fun j h1 h2 => List.mem_range.mpr (by omega))]
  dsimp only
  rw [htrim]

/-- Counterexample to C2 as stated: receiving counter 59 first on a fresh
session leaves index 0 — one of the "earliest 9 indices (0..8)" the claim
says are absent — still cached, while index 58 — one of the
"largest-index skipped entries" the claim says are retained — is not
cached.  Eviction is oldest-biased, not newer-biased. -/
theorem skipped_eviction_newer_biased_cex :
    skippedLookup 0 ((deriveReceiveKey (mkFreshSession "cid" ChatKind.dm "peer"
        (Bytes.utf8 "sck") (Bytes.utf8 "ck0")) 59 50).nextSession.skippedKeys) =
      some (bytesToBase64 (msgKey (Bytes.utf8 "ck0") 0)) ∧
    skippedLookup 58 ((deriveReceiveKey (mkFreshSession "cid" ChatKind.dm "peer"
        (Bytes.utf8 "sck") (Bytes.utf8 "ck0")) 59 50).nextSession.skippedKeys) =
      none := by
  rw [deriveReceiveKey_fresh_59]
  dsimp only
  constructor
  · rw [skippedLookup_pendingSeg,
      if_pos ⟨Nat.le_refl 0, by omega, List.mem_range.mpr (by omega)⟩]
  · rw [skippedLookup_pendingSeg, if_neg]
    rintro ⟨-, h, -⟩
    omega

/-- C2 (amended): starting from a fresh session (`recvN = 0`, empty
`skippedKeys`), calling `deriveReceiveKey` with n = 59 and `maxSkipped =
50` yields a cache of exactly 50 entries which are precisely the earliest
50 skipped indices 0..49; the latest 9 skipped indices (50..58) are never
cached and are unrecoverable.  (Insertion into the cache is skipped once
it holds `maxSkipped` entries, so eviction is oldest-biased; the
keep-largest `trimSkipped` pass never fires in this scenario.) -/
theorem skipped_eviction_oldest_biased (ck0 sck : Bytes) (cid peer : String) :
    ((deriveReceiveKey (mkFreshSession cid ChatKind.dm peer sck ck0)
        59 50).nextSession.skippedKeys).length = 50 ∧
    ((deriveReceiveKey (mkFreshSession cid ChatKind.dm peer sck ck0)
        59 50).nextSession.skippedKeys).map Prod.fst = List.range 50 ∧
    (deriveReceiveKey (mkFreshSession cid ChatKind.dm peer sck ck0)
        59 50).messageKey = some (msgKey ck0 59) ∧
    (deriveReceiveKey (mkFreshSession cid ChatKind.dm peer sck ck0)
        59 50).nextSession.recvN = 60 ∧
    (∀ j, j < 50 → skippedLookup j
        ((deriveReceiveKey (mkFreshSession cid ChatKind.dm peer sck ck0)
          59 50).nextSession.skippedKeys) =
        some (bytesToBase64 (msgKey ck0 j))) ∧
    (∀ j, 50 ≤ j → j ≤ 58 → skippedLookup j
        ((deriveReceiveKey (mkFreshSession cid ChatKind.dm peer sck ck0)
          59 50).nextSession.skippedKeys) = none) := by
  rw [deriveReceiveKey_fresh_59]
  dsimp only
  refine ⟨?_, ?_, rfl, rfl, ?_, ?_⟩
  · exact pendingSeg_length_full ck0 (List.range 50) 0 50
      (fun j h1 h2 => List.mem_range.mpr (by omega))
  · rw [pendingSeg_map_fst ck0 (List.range 50) 0 50
      (fun j h1 h2 => List.mem_range.mpr (by omega))]
    rw [List.range_eq_range']
  · intro j hj
    rw [skippedLookup_pendingSeg,
      if_pos ⟨Nat.zero_le j, by omega, List.mem_range.mpr hj⟩]
  · intro j h1 h2
    rw [skippedLookup_pendingSeg, if_neg]
    rintro ⟨-, h, -⟩
    omega

/-- The session cache invariant stated by the spec: bounded cache, and
every cached index lies strictly below `recvN`. -/
def SessionInv (s : SessionRecord) : Prop :=
  s.skippedKeys.length ≤ 50 ∧ ∀ e ∈ s.skippedKeys, e.1 < s.recvN

/-- One ratchet operation on a stored session: a send-chain advancement,
or a receive derivation at an arbitrary wire counter with
`MAX_SKIPPED_KEYS = 50` (the only two operations `chatStore.ts` performs
on a session's ratchet state). -/
inductive SessionStep : SessionRecord → SessionRecord → Prop where
  | send (s : SessionRecord) : SessionStep s (advanceSend s).2
  | recv (s : SessionRecord) (n : Nat) :
      SessionStep s (deriveReceiveKey s n MAX_SKIPPED_KEYS).nextSession

lemma trimSkipped_length_le (l : List (Nat × B64)) (m : Nat) :
    (trimSkipped l m).length ≤ max m l.length := by
  rw [trimSkipped]
  by_cases h : l.length ≤ m
  · rw [if_pos h]; omega
  · rw [if_neg h]
    have hp : (l.mergeSort (fun a b => a.1 ≤ b.1)).length = l.length :=
      (List.mergeSort_perm l _).length_eq
    rw [List.length_drop]
    omega

lemma trimSkipped_length_le_of_gt (l : List (Nat × B64)) (m : Nat) :
    (trimSkipped l m).length ≤ m ∨ trimSkipped l m = l := by
  rw [trimSkipped]
  by_cases h : l.length ≤ m
  · rw [if_pos h]; exact Or.inr rfl
  · rw [if_neg h]
    left
    have hp : (l.mergeSort (fun a b => a.1 ≤ b.1)).length = l.length :=
      (List.mergeSort_perm l _).length_eq
    rw [List.length_drop]
    omega

lemma trimSkipped_subset (l : List (Nat × B64)) (m : Nat) :
    ∀ e ∈ trimSkipped l m, e ∈ l := by
  intro e he
  rw [trimSkipped] at he
  by_cases h : l.length ≤ m
  · rw [if_pos h] at he; exact he
  · rw [if_neg h] at he
    exact (List.mergeSort_perm l _).subset ((List.drop_sublist _ _).subset he)

lemma skippedInsert_length_le (c : Nat) (v : B64) (l : List (Nat × B64)) :
    (skippedInsert c v l).length ≤ l.length + 1 := by
  induction l with
  | nil => rfl
  | cons x rest ih =>
    rw [skippedInsert]
    by_cases h1 : c < x.1
    · rw [if_pos h1]; simp
    · rw [if_neg h1]
      by_cases h2 : c = x.1
      · rw [if_pos h2]; simp
      · rw [if_neg h2]
        simp only [List.length_cons]
        omega

lemma recvLoop_skipped_length :
    ∀ (fuel : Nat) (ck : Bytes) (skipped : List (Nat × B64)) (index m : Nat),
      (recvLoop ck skipped index m fuel).2.2.length ≤ max skipped.length m := by
  intro fuel
  induction fuel with
  | zero => intro ck skipped index m; exact Nat.le_max_left _ _
  | succ fuel ih =>
    intro ck skipped index m
    rw [recvLoop]
    by_cases h : skipped.length < m
    · rw [if_pos h]
      have h1 := ih (hmacSha256 ck CK_LABEL)
        (skippedInsert index (bytesToBase64 (hmacSha256 ck MSG_LABEL)) skipped)
        (index + 1) m
      have h2 := skippedInsert_length_le index
        (bytesToBase64 (hmacSha256 ck MSG_LABEL)) skipped
      omega
    · rw [if_neg h]
      exact ih (hmacSha256 ck CK_LABEL) skipped (index + 1) m

lemma recvLoop_skipped_mem :
    ∀ (fuel : Nat) (ck : Bytes) (skipped : List (Nat × B64)) (index m : Nat),
      ∀ e ∈ (recvLoop ck skipped index m fuel).2.2,
        e ∈ skipped ∨ (index ≤ e.1 ∧ e.1 < index + fuel) := by
  intro fuel
  induction fuel with
  | zero => intro ck skipped index m e he; exact Or.inl he
  | succ fuel ih =>
    intro ck skipped index m e he
    rw [recvLoop] at he
    by_cases h : skipped.length < m
    · rw [if_pos h] at he
      rcases ih _ _ _ _ e he with h1 | h1
      · rcases mem_skippedInsert _ _ _ e h1 with h2 | h2
        · right
          rw [h2]
          exact ⟨Nat.le_refl index, by omega⟩
        · exact Or.inl h2
      · right
        omega
    · rw [if_neg h] at he
      rcases ih _ _ _ _ e he with h1 | h1
      · exact Or.inl h1
      · right
        omega

lemma sessionInv_step {s t : SessionRecord} (hs : SessionInv s)
    (h : SessionStep s t) : SessionInv t := by
  cases h with
  | send => exact hs
  | recv n =>
    by_cases hn : n < s.recvN
    · cases hl : skippedLookup n s.skippedKeys with
      | none =>
        have heq : (deriveReceiveKey s n MAX_SKIPPED_KEYS).nextSession = s := by
          rw [deriveReceiveKey, if_pos hn, hl]
        rw [heq]
        exact hs
      | some cached =>
        have heq : (deriveReceiveKey s n MAX_SKIPPED_KEYS).nextSession =
            { s with skippedKeys := skippedErase n s.skippedKeys } := by
          rw [deriveReceiveKey, if_pos hn, hl]
        rw [heq]
        refine ⟨le_trans (List.length_filter_le _ _) hs.1, ?_⟩
        intro e he
        exact hs.2 e (List.mem_of_mem_filter he)
    · have heq : (deriveReceiveKey s n MAX_SKIPPED_KEYS).nextSession =
          { s with
            recvCK := bytesToBase64 (recvLoop (base64ToBytes s.recvCK)
              s.skippedKeys s.recvN MAX_SKIPPED_KEYS (n - s.recvN)).2.1
            recvN := n + 1
            skippedKeys := trimSkipped (recvLoop (base64ToBytes s.recvCK)
              s.skippedKeys s.recvN MAX_SKIPPED_KEYS (n - s.recvN)).2.2
              MAX_SKIPPED_KEYS } := by
        rw [deriveReceiveKey, if_neg hn]
      rw [heq]
      constructor
      · have h1 := trimSkipped_length_le_of_gt (recvLoop (base64ToBytes s.recvCK)
          s.skippedKeys s.recvN MAX_SKIPPED_KEYS (n - s.recvN)).2.2 MAX_SKIPPED_KEYS
        rcases h1 with h1 | h1
        · exact h1
        · rw [h1]
          have h2 := recvLoop_skipped_length (n - s.recvN) (base64ToBytes s.recvCK)
            s.skippedKeys s.recvN MAX_SKIPPED_KEYS
          have h3 := hs.1
          have h4 : MAX_SKIPPED_KEYS = 50 := rfl
          show (recvLoop (base64ToBytes s.recvCK) s.skippedKeys s.recvN
            MAX_SKIPPED_KEYS (n - s.recvN)).2.2.length ≤ 50
          omega
      · intro e he
        have h1 := trimSkipped_subset _ _ e he
        rcases recvLoop_skipped_mem _ _ _ _ _ e h1 with h2 | h2
        · have h3 := hs.2 e h2
          show e.1 < n + 1
          omega
        · show e.1 < n + 1
          omega

/-- C7: Session cache invariant: every session state reachable from a
freshly seeded session (`sendN = recvN = 0`, empty `skippedKeys`) by any
sequence of `advanceSend` and `deriveReceiveKey` operations with
`maxSkipped = 50` has at most 50 entries in `skippedKeys`, and every
index stored in `skippedKeys` is strictly less than `recvN`. -/
theorem session_cache_invariant (cid peer : String) (kind : ChatKind)
    (sck rck : Bytes) (s : SessionRecord)
    (h : Relation.ReflTransGen SessionStep (mkFreshSession cid kind peer sck rck) s) :
    s.skippedKeys.length ≤ 50 ∧ ∀ e ∈ s.skippedKeys, e.1 < s.recvN := by
  induction h with
  | refl =>
    exact ⟨Nat.zero_le 50, fun e he => absurd he (List.not_mem_nil e)⟩
  | tail h1 h2 ih => exact sessionInv_step ih h2

/-- Witness for `session_cache_invariant`: one `advanceSend` followed by
a `deriveReceiveKey` at counter 3 from a fresh session. -/
theorem session_cache_invariant_witness :
    (deriveReceiveKey (advanceSend (mkFreshSession "cid" ChatKind.dm "peer"
        (Bytes.utf8 "a") (Bytes.utf8 "b"))).2 3
        MAX_SKIPPED_KEYS).nextSession.skippedKeys.length ≤ 50 ∧
    ∀ e ∈ (deriveReceiveKey (advanceSend (mkFreshSession "cid" ChatKind.dm "peer"
        (Bytes.utf8 "a") (Bytes.utf8 "b"))).2 3
        MAX_SKIPPED_KEYS).nextSession.skippedKeys,
      e.1 < (deriveReceiveKey (advanceSend (mkFreshSession "cid" ChatKind.dm "peer"
        (Bytes.utf8 "a") (Bytes.utf8 "b"))).2 3
        MAX_SKIPPED_KEYS).nextSession.recvN :=
  session_cache_invariant "cid" "peer" ChatKind.dm (Bytes.utf8 "a") (Bytes.utf8 "b") _
    ((Relation.ReflTransGen.refl.tail (SessionStep.send _)).tail
      (SessionStep.recv _ 3))

/-- C8: Passphrase encryption round-trip: for every byte string x, every
non-empty passphrase p, and the sampled salt and IV, decrypting
`encryptWithPassphrase(x, p)` with p returns x; and for every p' ≠ p,
decryption fails with the BadPassphrase error (modelled as `none`) and
never returns a plaintext. -/
theorem passphrase_roundtrip (x : Bytes) (p p2 : String) (salt iv : Bytes)
    (hp : p ≠ "") (hne : p2 ≠ p) :
    decryptWithPassphrase (encryptWithPassphrase x p salt iv) p = some x ∧
    decryptWithPassphrase (encryptWithPassphrase x p salt iv) p2 = none := by
  constructor
  · simp [decryptWithPassphrase, encryptWithPassphrase, gcmOpen,
      deriveAesKeyBytes, base64ToBytes, bytesToBase64, stringToBytes]
  · simp [decryptWithPassphrase, encryptWithPassphrase, gcmOpen,
      deriveAesKeyBytes, base64ToBytes, bytesToBase64, stringToBytes]
    intro h
    exact absurd h.symm hne

/-- Witness for `passphrase_roundtrip`: the passphrase "pw" is non-empty
and differs from "wrong". -/
theorem passphrase_roundtrip_witness :
    decryptWithPassphrase (encryptWithPassphrase (Bytes.utf8 "data") "pw"
      (Bytes.random 0) (Bytes.random 1)) "pw" = some (Bytes.utf8 "data") ∧
    decryptWithPassphrase (encryptWithPassphrase (Bytes.utf8 "data") "pw"
      (Bytes.random 0) (Bytes.random 1)) "wrong" = none :=
  passphrase_roundtrip (Bytes.utf8 "data") "pw" "wrong" (Bytes.random 0)
    (Bytes.random 1) (by decide) (by decide)

/- ## Session engine slice (`src/store/chatStore.ts`) -/

/-- `MessageKind` from `src/types/chat.ts`. -/
inductive MessageKind where
  | text
  | reaction
  | edit
  | delete
  | typing
  | attachmentMeta
  | attachmentChunk
  | system
  | rekey
  deriving DecidableEq, Repr

/-- `MessageStatus` from `src/types/chat.ts`. -/
inductive MessageStatus where
  | sending
  | sent
  | delivered
  | failed
  deriving DecidableEq, Repr

/-- `RequestStatus` from `src/types/chat.ts`. -/
inductive RequestStatus where
  | pending
  | accepted
  | declined
  | blocked
  deriving DecidableEq, Repr

/-- `MessageRecord` from `src/types/chat.ts` (the fields the modelled
slice touches; an absent optional `keyMismatch` is modelled as
`false`). -/
structure MessageRecord where
  id : String
  chatId : String
  type : MessageKind
  fromPubKey : String
  body : Option String
  timestamp : Nat
  status : Option MessageStatus
  n : Option Nat
  replyTo : Option String
  keyMismatch : Bool
  deriving DecidableEq, Repr

/-- `ChatRecord` from `src/types/chat.ts`. -/
structure ChatRecord where
  id : String
  kind : ChatKind
  title : String
  participants : List String
  accepted : Bool
  createdAt : Nat
  lastMessageAt : Option Nat
  unreadCount : Option Nat
  deriving DecidableEq, Repr

/-- `RequestRecord` from `src/types/chat.ts` (DM fields). -/
structure RequestRecord where
  id : String
  kind : ChatKind
  fromPubKey : String
  toPubKey : String
  intro : String
  status : RequestStatus
  createdAt : Nat
  deriving DecidableEq, Repr

/-- The `dm_message` wire envelope (`{v, type: "dm_message", ...}`
produced by `sendMessage` / `sendEventMessage` and consumed by
`handleEncryptedMessage`). -/
structure DmMessagePayload where
  v : Nat
  conversationId : String
  messageId : String
  fromPubKey : String
  n : Nat
  nonce : B64
  ciphertext : B64
  timestamp : Nat
  deriving DecidableEq, Repr

/-- Wire envelopes published by the modelled slice.  The JSON envelope
codec is modelled as the identity on these structured values (no claim
depends on the byte-level encoding). -/
inductive WireMsg where
  | chatAccept (requestId fromPubKey toPubKey conversationId : String) (timestamp : Nat)
  | chatBlocked (requestId fromPubKey toPubKey conversationId : String) (timestamp : Nat)
  | dmMessage (payload : DmMessagePayload)
  | dmAck (conversationId messageId fromPubKey toPubKey : String) (timestamp : Nat)
  deriving DecidableEq, Repr

/-- `encodePayload` on inner payloads (`JSON.stringify` then UTF-8). -/
def encodePayload (payload : InnerPayload) : Bytes := Bytes.inner payload

/-- `decodePayload` on decrypted inner bytes: `JSON.parse` returning
`null` (here `none`) on anything that is not an encoded payload. -/
def decodePayload (bytes : Bytes) : Option InnerPayload :=
  match bytes with
  | Bytes.inner payload => some payload
  | _ => none

/-- `state.sessions[conversationId]` lookup. -/
def sessionsGet (sessions : List (String × SessionRecord)) (conversationId : String) :
    Option SessionRecord :=
  match sessions.find? (fun e => e.1 == conversationId) with
  | some e => some e.2
  | none => none

/-- `{ ...prev.sessions, [conversationId]: session }`.  JavaScript object
update; the binding order is irrelevant to the claims, so the updated
binding is appended after the others. -/
def sessionsSet (sessions : List (String × SessionRecord)) (conversationId : String)
    (session : SessionRecord) : List (String × SessionRecord) :=
  sessions.filter (fun e => e.1 ≠ conversationId) ++ [(conversationId, session)]

/-- `messageListForChat` from `src/store/chatStore.ts`. -/
def messageListForChat (messages : List (String × List MessageRecord))
    (chatId : String) : List MessageRecord :=
  match messages.find? (fun e => e.1 == chatId) with
  | some e => e.2
  | none => []

/-- `updateMessageList` from `src/store/chatStore.ts`: push the new
record and re-sort the chat's list by timestamp (JavaScript's stable
sort). -/
def updateMessageList (messages : List (String × List MessageRecord))
    (chatId : String) (next : MessageRecord) : List (String × List MessageRecord) :=
  let list := (messageListForChat messages chatId ++ [next]).mergeSort
    (fun a b => a.timestamp ≤ b.timestamp)
  messages.filter (fun e => e.1 ≠ chatId) ++ [(chatId, list)]

/-- `createSystemMessage` from `src/store/chatStore.ts`; the generated
`randomId()` and `now()` are passed explicitly. -/
def createSystemMessage (chatId body : String) (freshId : String) (timestamp : Nat) :
    MessageRecord :=
  { id := freshId
    chatId
    type := MessageKind.system
    fromPubKey := "system"
    body := some body
    timestamp
    status := none
    n := none
    replyTo := none
    keyMismatch := false }

/-- The engine state slice the claims are about: the unlocked identity,
the record stores and the log of `publishPayload` calls.  The persistence
port mirrors every in-memory update in the modelled slice, so each store
is modelled once. -/
structure EngineState where
  chatKey : String
  unlockedSecretKey : Bytes
  activeChatId : Option String
  chats : List ChatRecord
  requests : List RequestRecord
  sessions : List (String × SessionRecord)
  messages : List (String × List MessageRecord)
  published : List (String × WireMsg)
  deriving DecidableEq, Repr

/-- `ensureSession` from `src/store/chatStore.ts`: return the stored
session, or create, persist and return a freshly seeded one (DH shared
secret → root key → mirrored chain keys). -/
def ensureSession (st : EngineState) (conversationId : String) (kind : ChatKind)
    (peerPubKey : String) : SessionRecord × EngineState :=
  match sessionsGet st.sessions conversationId with
  | some existing => (existing, st)
  | none =>
    let sharedSecret := Bytes.shared (base58ToBytes peerPubKey) st.unlockedSecretKey
    let rootKey := deriveRootKey sharedSecret conversationId
    let ck := deriveChainKeys rootKey st.chatKey peerPubKey
    let session : SessionRecord :=
      { conversationId
        kind
        peerPubKey
        sendCK := bytesToBase64 ck.sendCK
        recvCK := bytesToBase64 ck.recvCK
        sendN := 0
        recvN := 0
        skippedKeys := [] }
    (session, { st with sessions := sessionsSet st.sessions conversationId session })

/-- `getSendKey` from `src/store/chatStore.ts`: ensure the session and
advance the send chain, returning the message key and advanced session. -/
def getSendKey (st : EngineState) (conversationId : String) (kind : ChatKind)
    (peerPubKey : String) : (Bytes × SessionRecord) × EngineState :=
  let es := ensureSession st conversationId kind peerPubKey
  let r := advanceSend es.1
  ((r.1, r.2), es.2)

/-- The DM branch of `sendMessage` from `src/store/chatStore.ts` (the
group branch hands off to the group fanout, outside this slice; `!chat`,
`!chat.accepted` and locked-identity guards return unchanged).  The
CSPRNG nonce, the generated message id and the clock reading are passed
explicitly. -/
def sendMessage (st : EngineState) (chatId body : String) (replyTo : Option String)
    (nonce : Bytes) (messageId : String) (tNow : Nat) : EngineState :=
  match st.chats.find? (fun item => item.id == chatId) with
  | none => st
  | some chat =>
    if !chat.accepted then st
    else if chat.kind == ChatKind.group then st
    else
      match chat.participants.find? (fun key => key != st.chatKey) with
      | none => st
      | some peerPubKey =>
        let gk := getSendKey st chatId chat.kind peerPubKey
        let messageKey := gk.1.1
        let session := gk.1.2
        let st1 := gk.2
        let messageNumber := max 0 (session.sendN - 1)
        let ciphertext := secretbox (encodePayload (InnerPayload.text body replyTo))
          nonce messageKey
        let payload : DmMessagePayload :=
          { v := 1
            conversationId := chatId
            messageId
            fromPubKey := st.chatKey
            n := messageNumber
            nonce := bytesToBase64 nonce
            ciphertext := bytesToBase64 ciphertext
            timestamp := tNow }
        let message : MessageRecord :=
          { id := messageId
            chatId
            type := MessageKind.text
            fromPubKey := st.chatKey
            body := some body
            timestamp := tNow
            status := some MessageStatus.sent
            n := some messageNumber
            replyTo
            keyMismatch := false }
        { st1 with
          published := st1.published ++ [(dmTopic chatId, WireMsg.dmMessage payload)]
          sessions := sessionsSet st1.sessions chatId session
          messages := updateMessageList st1.messages chatId message
          chats := st1.chats.map (fun item =>
            if item.id == chatId then { item with lastMessageAt := some tNow } else item) }

/-- `sendEventMessage` from `src/store/chatStore.ts`: seal a non-text
inner payload to the DM peer; same counter arithmetic as `sendMessage`,
no local MessageRecord. -/
def sendEventMessage (st : EngineState) (chat : ChatRecord)
    (eventPayload : InnerPayload) (nonce : Bytes) (messageId : String)
    (tNow : Nat) : EngineState :=
  match chat.participants.find? (fun key => key != st.chatKey) with
  | none => st
  | some peerPubKey =>
    let gk := getSendKey st chat.id chat.kind peerPubKey
    let messageKey := gk.1.1
    let session := gk.1.2
    let st1 := gk.2
    let messageNumber := max 0 (session.sendN - 1)
    let ciphertext := secretbox (encodePayload eventPayload) nonce messageKey
    let payload : DmMessagePayload :=
      { v := 1
        conversationId := chat.id
        messageId
        fromPubKey := st.chatKey
        n := messageNumber
        nonce := bytesToBase64 nonce
        ciphertext := bytesToBase64 ciphertext
        timestamp := tNow }
    { st1 with
      published := st1.published ++ [(dmTopic chat.id, WireMsg.dmMessage payload)]
      sessions := sessionsSet st1.sessions chat.id session }

/-- The `chat_request` branch of `handleIncoming` from
`src/store/chatStore.ts`: (a) accepted chat exists → re-emit
`chat_accept` and stop; (b) blocked request from this sender → emit
`chat_blocked` and stop; (c) otherwise open the sealed intro (placeholder
text on failure) and persist a pending Request. -/
def handleChatRequest (st : EngineState) (requestId fromPubKey : String)
    (nonce ciphertext : Bytes) (timestamp tNow : Nat) : EngineState :=
  let chatId := conversationIdFromPubKeys st.chatKey fromPubKey
  match st.chats.find? (fun item => item.id == chatId && item.accepted) with
  | some _ =>
    { st with published := st.published ++
        [(inboxTopic (base58ToBytes fromPubKey),
          WireMsg.chatAccept requestId st.chatKey fromPubKey chatId tNow)] }
  | none =>
    match st.requests.find? (fun item =>
        item.fromPubKey == fromPubKey && item.toPubKey == st.chatKey &&
          item.status == RequestStatus.blocked) with
    | some _ =>
      { st with published := st.published ++
          [(inboxTopic (base58ToBytes fromPubKey),
            WireMsg.chatBlocked requestId st.chatKey fromPubKey chatId tNow)] }
    | none =>
      let introBytes := secretboxOpen ciphertext nonce
        (Bytes.shared (base58ToBytes fromPubKey) st.unlockedSecretKey)
      let intro := match introBytes with
        | some b => bytesToString b
        | none => "Unable to decrypt intro."
      let request : RequestRecord :=
        { id := requestId
          kind := ChatKind.dm
          fromPubKey
          toPubKey := st.chatKey
          intro
          status := RequestStatus.pending
          createdAt := timestamp }
      { st with requests :=
          st.requests.filter (fun item => item.id ≠ request.id) ++ [request] }

/-- The `text` branch of `handleInnerPayload` from
`src/store/chatStore.ts`: append the delivered MessageRecord and bump the
chat's `lastMessageAt` / `unreadCount`.  The remaining inner kinds
(reaction, edit, delete, typing, attachments, rekey) act on stores and
claims outside this slice and are left to the `event` no-op arm. -/
def handleInnerPayload (st : EngineState) (chatId fromPubKey : String)
    (inner : InnerPayload) (messageId : String) (tNow : Nat) : EngineState :=
  match inner with
  | InnerPayload.text body replyTo =>
    let message : MessageRecord :=
      { id := messageId
        chatId
        type := MessageKind.text
        fromPubKey
        body := some body
        timestamp := tNow
        status := some MessageStatus.delivered
        n := none
        replyTo
        keyMismatch := false }
    let isActive := st.activeChatId == some chatId
    { st with
      messages := updateMessageList st.messages chatId message
      chats := st.chats.map (fun item =>
        if item.id == chatId then
          { item with
            lastMessageAt := some tNow
            unreadCount := if isActive then some 0
              else some ((item.unreadCount.getD 0) + 1) }
        else item) }
  | InnerPayload.event _ => st

/-- `handleEncryptedMessage` from `src/store/chatStore.ts`: drop own
echoes and unknown conversations; ensure the session; derive the receive
key at `payload.n`; on a missing key or secretbox failure append the
local "Key mismatch" system message (flagged `keyMismatch := true` in the
conversation list) without persisting the advanced session or acking; on
success persist the advanced session, publish the `dm_ack` and apply the
inner payload. -/
def handleEncryptedMessage (st : EngineState) (payload : DmMessagePayload)
    (freshId : String) (tNow : Nat) : EngineState :=
  let chatId := payload.conversationId
  let fromPubKey := payload.fromPubKey
  if fromPubKey == st.chatKey then st
  else
    match st.chats.find? (fun item => item.id == chatId) with
    | none => st
    | some _ =>
      let es := ensureSession st chatId ChatKind.dm fromPubKey
      let session := es.1
      let st1 := es.2
      let r := deriveReceiveKey session payload.n MAX_SKIPPED_KEYS
      match r.messageKey with
      | none =>
        let km := createSystemMessage chatId
          "Key mismatch. Rekey to continue." freshId tNow
        let kmFlagged : MessageRecord := { km with keyMismatch := true }
        { st1 with messages := updateMessageList st1.messages chatId kmFlagged }
      | some messageKey =>
        match secretboxOpen (base64ToBytes payload.ciphertext)
            (base64ToBytes payload.nonce) messageKey with
        | none =>
          let km := createSystemMessage chatId
            "Key mismatch. Rekey to continue." freshId tNow
          let kmFlagged : MessageRecord := { km with keyMismatch := true }
          { st1 with messages := updateMessageList st1.messages chatId kmFlagged }
        | some decrypted =>
          match decodePayload decrypted with
          | none => st1
          | some inner =>
            let st2 := { st1 with
              sessions := sessionsSet st1.sessions chatId r.nextSession }
            let st3 := { st2 with published := st2.published ++
              [(inboxTopic (base58ToBytes fromPubKey),
                WireMsg.dmAck chatId payload.messageId st.chatKey fromPubKey tNow)] }
            handleInnerPayload st3 chatId fromPubKey inner payload.messageId tNow

/-- C9: Acceptance idempotency: when a `chat_request` arrives from a peer
for whom an accepted chat with the corresponding conversation id already
exists, the handler publishes exactly one `chat_accept` envelope to that
peer's inbox topic and stops: no Request record is persisted and the
requests, chats and sessions stores are unchanged. -/
theorem accept_idempotency (st : EngineState) (requestId fromPubKey : String)
    (nonce ciphertext : Bytes) (timestamp tNow : Nat) (chat : ChatRecord)
    (h : st.chats.find? (fun item =>
        item.id == conversationIdFromPubKeys st.chatKey fromPubKey &&
          item.accepted) = some chat) :
    handleChatRequest st requestId fromPubKey nonce ciphertext timestamp tNow =
      { st with published := st.published ++
          [(inboxTopic (base58ToBytes fromPubKey),
            WireMsg.chatAccept requestId st.chatKey fromPubKey
              (conversationIdFromPubKeys st.chatKey fromPubKey) tNow)] } ∧
    (handleChatRequest st requestId fromPubKey nonce ciphertext timestamp tNow).requests
      = st.requests ∧
    (handleChatRequest st requestId fromPubKey nonce ciphertext timestamp tNow).chats
      = st.chats ∧
    (handleChatRequest st requestId fromPubKey nonce ciphertext timestamp tNow).sessions
      = st.sessions ∧
    (handleChatRequest st requestId fromPubKey nonce ciphertext timestamp tNow).messages
      = st.messages := by
  have heq : handleChatRequest st requestId fromPubKey nonce ciphertext timestamp tNow =
      { st with published := st.published ++
          [(inboxTopic (base58ToBytes fromPubKey),
            WireMsg.chatAccept requestId st.chatKey fromPubKey
              (conversationIdFromPubKeys st.chatKey fromPubKey) tNow)] } := by
    rw [handleChatRequest]
    rw [h]
  exact ⟨heq, by rw [heq], by rw [heq], by rw [heq], by rw [heq]⟩

/-- The accepted DM chat used by the witness states. -/
def sampleChat : ChatRecord :=
  { id := conversationIdFromPubKeys "me" "peerB58"
    kind := ChatKind.dm
    title := "peer"
    participants := ["me", "peerB58"]
    accepted := true
    createdAt := 0
    lastMessageAt := none
    unreadCount := none }

/-- A minimal engine state for the witnesses: the unlocked identity
"me", one accepted DM chat with peer "peerB58" and its stored fresh
session. -/
def sampleState : EngineState :=
  { chatKey := "me"
    unlockedSecretKey := Bytes.utf8 "sk"
    activeChatId := none
    chats := [sampleChat]
    requests := []
    sessions := [(conversationIdFromPubKeys "me" "peerB58",
      mkFreshSession (conversationIdFromPubKeys "me" "peerB58") ChatKind.dm
        "peerB58" (Bytes.utf8 "sck") (Bytes.utf8 "rck"))]
    messages := []
    published := [] }

/-- Witness for `accept_idempotency`: a repeated request from "peerB58"
against `sampleState`, whose chat list holds the accepted chat. -/
theorem accept_idempotency_witness :
    handleChatRequest sampleState "req1" "peerB58" (Bytes.random 0) (Bytes.random 1)
        3 4 =
      { sampleState with published := sampleState.published ++
          [(inboxTopic (base58ToBytes "peerB58"),
            WireMsg.chatAccept "req1" sampleState.chatKey "peerB58"
              (conversationIdFromPubKeys sampleState.chatKey "peerB58") 4)] } := by
  have h : sampleState.chats.find? (fun item =>
      item.id == conversationIdFromPubKeys sampleState.chatKey "peerB58" &&
        item.accepted) = some sampleChat := by
    simp [sampleState, sampleChat, List.find?]
  exact (accept_idempotency sampleState "req1" "peerB58" (Bytes.random 0)
    (Bytes.random 1) 3 4 sampleChat h).1

/-- C10 (implicit): an inbound `dm_message` whose conversationId matches
no locally stored chat is silently dropped before any ratchet work: the
handler returns the engine state unchanged — no session is created or
advanced, no key-mismatch system message is appended, no message is
persisted, and no `dm_ack` is published. -/
theorem unknown_conversation_dropped (st : EngineState) (payload : DmMessagePayload)
    (freshId : String) (tNow : Nat)
    (h : st.chats.find? (fun item => item.id == payload.conversationId) = none) :
    handleEncryptedMessage st payload freshId tNow = st := by
  rw [handleEncryptedMessage]
  by_cases hme : payload.fromPubKey == st.chatKey
  · rw [if_pos hme]
  · rw [if_neg hme, h]

/-- A witness state with no chats at all. -/
def sampleNoChats : EngineState :=
  { chatKey := "me"
    unlockedSecretKey := Bytes.utf8 "sk"
    activeChatId := none
    chats := []
    requests := []
    sessions := []
    messages := []
    published := [] }

/-- Witness for `unknown_conversation_dropped`: a dm_message for an
unknown conversation id against `sampleNoChats`. -/
theorem unknown_conversation_dropped_witness :
    handleEncryptedMessage sampleNoChats
      { v := 1, conversationId := "nope", messageId := "m1", fromPubKey := "peerB58",
        n := 0, nonce := bytesToBase64 (Bytes.random 0),
        ciphertext := bytesToBase64 (Bytes.random 1), timestamp := 2 } "f" 3 =
      sampleNoChats :=
  unknown_conversation_dropped sampleNoChats _ "f" 3 rfl

/-- The local system message appended on a receive failure
(`createSystemMessage` flagged `keyMismatch := true` in the conversation
list, `src/store/chatStore.ts` lines 1224-1231 and 1238-1245). -/
def keyMismatchMessage (chatId freshId : String) (tNow : Nat) : MessageRecord :=
  { createSystemMessage chatId "Key mismatch. Rekey to continue." freshId tNow with
    keyMismatch := true }

/-- C3: Receive-failure atomicity for inbound `dm_message`: with a stored
session, whenever the receive key is absent or secretbox-open fails, the
stored session is left unchanged (no advanced session is persisted), the
only state change is the appended local system message "Key mismatch.
Rekey to continue." with `keyMismatch = true`, and no `dm_ack` is
published; on successful decryption the advanced session is persisted
and the `dm_ack` is published. -/
theorem receive_failure_atomicity (st : EngineState) (payload : DmMessagePayload)
    (freshId : String) (tNow : Nat) (chat : ChatRecord) (sess : SessionRecord)
    (hme : payload.fromPubKey ≠ st.chatKey)
    (hchat : st.chats.find? (fun item => item.id == payload.conversationId)
      = some chat)
    (hsess : sessionsGet st.sessions payload.conversationId = some sess) :
    ((deriveReceiveKey sess payload.n MAX_SKIPPED_KEYS).messageKey = none →
      handleEncryptedMessage st payload freshId tNow =
        { st with messages := (updateMessageList st.messages payload.conversationId
            (keyMismatchMessage payload.conversationId freshId tNow)) }) ∧
    (∀ mk, (deriveReceiveKey sess payload.n MAX_SKIPPED_KEYS).messageKey = some mk →
      secretboxOpen (base64ToBytes payload.ciphertext) (base64ToBytes payload.nonce)
        mk = none →
      handleEncryptedMessage st payload freshId tNow =
        { st with messages := (updateMessageList st.messages payload.conversationId
            (keyMismatchMessage payload.conversationId freshId tNow)) }) ∧
    (∀ mk d body replyTo,
      (deriveReceiveKey sess payload.n MAX_SKIPPED_KEYS).messageKey = some mk →
      secretboxOpen (base64ToBytes payload.ciphertext) (base64ToBytes payload.nonce)
        mk = some d →
      decodePayload d = some (InnerPayload.text body replyTo) →
      (handleEncryptedMessage st payload freshId tNow).sessions =
        sessionsSet st.sessions payload.conversationId
          (deriveReceiveKey sess payload.n MAX_SKIPPED_KEYS).nextSession ∧
      (handleEncryptedMessage st payload freshId tNow).published =
        st.published ++
          [(inboxTopic (base58ToBytes payload.fromPubKey),
            WireMsg.dmAck payload.conversationId payload.messageId st.chatKey
              payload.fromPubKey tNow)]) := by
  have hbne : ¬ (payload.fromPubKey == st.chatKey) = true := by simpa using hme
  have hes : ensureSession st payload.conversationId ChatKind.dm payload.fromPubKey
      = (sess, st) := by
    rw [ensureSession, hsess]
  refine ⟨?_, ?_, ?_⟩
  · intro hnone
    rw [handleEncryptedMessage, if_neg hbne, hchat, hes]
    dsimp only
    rw [hnone]
    rfl
  · intro mk hmk hopen
    rw [handleEncryptedMessage, if_neg hbne, hchat, hes]
    dsimp only
    rw [hmk]
    dsimp only
    rw [hopen]
    rfl
  · intro mk d body replyTo hmk hopen hdec
    rw [handleEncryptedMessage, if_neg hbne, hchat, hes]
    dsimp only
    rw [hmk]
    dsimp only
    rw [hopen]
    dsimp only
    rw [hdec]
    exact ⟨rfl, rfl⟩

/-- Witness for `receive_failure_atomicity`: a dm_message from "peerB58"
whose ciphertext is random junk, so secretbox-open fails against the
derived key; only the key-mismatch system message is appended. -/
theorem receive_failure_atomicity_witness :
    handleEncryptedMessage sampleState
      { v := 1, conversationId := conversationIdFromPubKeys "me" "peerB58",
        messageId := "m1", fromPubKey := "peerB58", n := 0,
        nonce := bytesToBase64 (Bytes.random 0),
        ciphertext := bytesToBase64 (Bytes.random 1), timestamp := 2 } "f" 9 =
      { sampleState with messages := (updateMessageList sampleState.messages
          (conversationIdFromPubKeys "me" "peerB58")
          (keyMismatchMessage (conversationIdFromPubKeys "me" "peerB58") "f" 9)) } := by
  have h := receive_failure_atomicity sampleState
    { v := 1, conversationId := conversationIdFromPubKeys "me" "peerB58",
      messageId := "m1", fromPubKey := "peerB58", n := 0,
      nonce := bytesToBase64 (Bytes.random 0),
      ciphertext := bytesToBase64 (Bytes.random 1), timestamp := 2 } "f" 9
    sampleChat
    (mkFreshSession (conversationIdFromPubKeys "me" "peerB58") ChatKind.dm
      "peerB58" (Bytes.utf8 "sck") (Bytes.utf8 "rck"))
    (by decide)
    (by simp [sampleState, sampleChat, List.find?])
    (by simp [sessionsGet, sampleState, List.find?])
  exact h.2.1 (msgKey (Bytes.utf8 "rck") 0) rfl rfl

lemma find?_append_right {α : Type} (p : α → Bool) (l1 l2 : List α)
    (h : ∀ e ∈ l1, p e = false) : (l1 ++ l2).find? p = l2.find? p := by
  induction l1 with
  | nil => rfl
  | cons x rest ih =>
    rw [List.cons_append, List.find?_cons_of_neg]
    · exact ih (fun e he => h e (List.mem_cons_of_mem x he))
    · rw [h x (List.mem_cons_self x rest)]
      exact Bool.false_ne_true

lemma sessionsGet_set (sessions : List (String × SessionRecord)) (cid : String)
    (s : SessionRecord) : sessionsGet (sessionsSet sessions cid s) cid = some s := by
  rw [sessionsGet, sessionsSet, find?_append_right]
  · rw [List.find?_cons_of_pos]
    exact beq_self_eq_true cid
  · intro e he
    have := List.of_mem_filter he
    have hne : e.1 ≠ cid := by simpa using this
    exact beq_eq_false_iff_ne.mpr hne

lemma find?_chats_update (chats : List ChatRecord) (chatId : String) (tN : Nat)
    (chat : ChatRecord)
    (h : chats.find? (fun item => item.id == chatId) = some chat) :
    (chats.map (fun item =>
      if item.id == chatId then { item with lastMessageAt := some tN } else item)).find?
        (fun item => item.id == chatId) =
      some { chat with lastMessageAt := some tN } := by
  induction chats with
  | nil => cases h
  | cons x rest ih =>
    rw [List.map_cons]
    by_cases hx : (x.id == chatId) = true
    · rw [List.find?_cons] at h
      rw [hx] at h
      dsimp only at h
      injection h with h2
      subst h2
      rw [if_pos hx, List.find?_cons]
      dsimp only
      rw [hx]
    · have hxf : (x.id == chatId) = false := by simpa using hx
      rw [List.find?_cons] at h
      rw [hxf] at h
      dsimp only at h
      rw [if_neg hx, List.find?_cons]
      rw [hxf]
      exact ih h

lemma sendMessage_spec (st : EngineState) (chatId body : String)
    (replyTo : Option String) (nonce : Bytes) (messageId : String) (tNow : Nat)
    (chat : ChatRecord) (peerPubKey : String) (sess : SessionRecord)
    (hchat : st.chats.find? (fun item => item.id == chatId) = some chat)
    (hacc : chat.accepted = true)
    (hkind : chat.kind = ChatKind.dm)
    (hpeer : chat.participants.find? (fun key => key != st.chatKey) = some peerPubKey)
    (hsess : sessionsGet st.sessions chatId = some sess) :
    sendMessage st chatId body replyTo nonce messageId tNow =
      { st with
        published := (st.published ++ [(dmTopic chatId, WireMsg.dmMessage
          { v := 1
            conversationId := chatId
            messageId
            fromPubKey := st.chatKey
            n := max 0 ((advanceSend sess).2.sendN - 1)
            nonce := bytesToBase64 nonce
            ciphertext := bytesToBase64 (secretbox
              (encodePayload (InnerPayload.text body replyTo)) nonce
              (advanceSend sess).1)
            timestamp := tNow })])
        sessions := (sessionsSet st.sessions chatId (advanceSend sess).2)
        messages := (updateMessageList st.messages chatId
          { id := messageId
            chatId
            type := MessageKind.text
            fromPubKey := st.chatKey
            body := some body
            timestamp := tNow
            status := some MessageStatus.sent
            n := some (max 0 ((advanceSend sess).2.sendN - 1))
            replyTo
            keyMismatch := false })
        chats := (st.chats.map (fun item =>
          if item.id == chatId then { item with lastMessageAt := some tNow }
          else item)) } := by
  have hes : ensureSession st chatId ChatKind.dm peerPubKey = (sess, st) := by
    rw [ensureSession, hsess]
  simp only [sendMessage, getSendKey, hchat, hacc, hkind, hpeer, hes,
    Bool.not_true, Bool.false_eq_true, if_false,
    show (ChatKind.dm == ChatKind.group) = false from by decide]

lemma sendEventMessage_spec (st : EngineState) (chat : ChatRecord)
    (eventPayload : InnerPayload) (nonce : Bytes) (messageId : String) (tNow : Nat)
    (peerPubKey : String) (sess : SessionRecord)
    (hpeer : chat.participants.find? (fun key => key != st.chatKey) = some peerPubKey)
    (hsess : sessionsGet st.sessions chat.id = some sess) :
    sendEventMessage st chat eventPayload nonce messageId tNow =
      { st with
        published := (st.published ++ [(dmTopic chat.id, WireMsg.dmMessage
          { v := 1
            conversationId := chat.id
            messageId
            fromPubKey := st.chatKey
            n := max 0 ((advanceSend sess).2.sendN - 1)
            nonce := bytesToBase64 nonce
            ciphertext := bytesToBase64 (secretbox (encodePayload eventPayload)
              nonce (advanceSend sess).1)
            timestamp := tNow })])
        sessions := (sessionsSet st.sessions chat.id (advanceSend sess).2) } := by
  have hes : ensureSession st chat.id chat.kind peerPubKey = (sess, st) := by
    rw [ensureSession, hsess]
  simp only [sendEventMessage, getSendKey, hpeer, hes]

/-- The wire counters of the dm_message envelopes in a publish log, in
publish order. -/
def dmCounters (published : List (String × WireMsg)) : List Nat :=
  published.filterMap (fun e =>
    match e.2 with
    | WireMsg.dmMessage p => some p.n
    | _ => none)

/-- Send `k` text messages in a row through `sendMessage` (with a fresh
nonce and clock reading per step, indexed from `start`). -/
def sendMessageTrace (chatId body : String) : Nat → Nat → EngineState → EngineState
  | _, 0, st => st
  | start, k + 1, st =>
    sendMessageTrace chatId body (start + 1) k
      (sendMessage st chatId body none (Bytes.random start) "mid" start)

lemma dmCounters_append (l1 l2 : List (String × WireMsg)) :
    dmCounters (l1 ++ l2) = dmCounters l1 ++ dmCounters l2 := by
  rw [dmCounters, dmCounters, dmCounters, List.filterMap_append]

lemma sendMessageTrace_counters (chatId body : String) :
    ∀ (k start : Nat) (st : EngineState) (chat : ChatRecord) (sess : SessionRecord)
      (peerPubKey : String),
      st.chats.find? (fun item => item.id == chatId) = some chat →
      chat.accepted = true →
      chat.kind = ChatKind.dm →
      chat.participants.find? (fun key => key != st.chatKey) = some peerPubKey →
      sessionsGet st.sessions chatId = some sess →
      dmCounters (sendMessageTrace chatId body start k st).published =
        dmCounters st.published ++ List.range' sess.sendN k := by
  intro k
  induction k with
  | zero =>
    intro start st chat sess peer _ _ _ _ _
    rw [sendMessageTrace, List.range', List.append_nil]
  | succ k ih =>
    intro start st chat sess peer hchat hacc hkind hpeer hsess
    rw [sendMessageTrace]
    have hs := sendMessage_spec st chatId body none (Bytes.random start) "mid" start
      chat peer sess hchat hacc hkind hpeer hsess
    rw [hs]
    rw [ih (start + 1) _ { chat with lastMessageAt := some start }
      (advanceSend sess).2 peer
      (by exact find?_chats_update st.chats chatId start chat hchat)
      (by exact hacc) (by exact hkind) (by exact hpeer)
      (by exact sessionsGet_set st.sessions chatId (advanceSend sess).2)]
    rw [dmCounters_append]
    have h1 : dmCounters [(dmTopic chatId, WireMsg.dmMessage
        { v := 1
          conversationId := chatId
          messageId := "mid"
          fromPubKey := st.chatKey
          n := max 0 ((advanceSend sess).2.sendN - 1)
          nonce := bytesToBase64 (Bytes.random start)
          ciphertext := bytesToBase64 (secretbox
            (encodePayload (InnerPayload.text body none)) (Bytes.random start)
            (advanceSend sess).1)
          timestamp := start })] = [max 0 ((advanceSend sess).2.sendN - 1)] := rfl
    rw [h1]
    have h2 : max 0 ((advanceSend sess).2.sendN - 1) = sess.sendN := by
      show max 0 (sess.sendN + 1 - 1) = sess.sendN
      omega
    have h3 : (advanceSend sess).2.sendN = sess.sendN + 1 := rfl
    rw [h2, h3, List.append_assoc, List.singleton_append, List.range'_succ]

/-- C6: Wire counter correctness: every outbound `dm_message` envelope
produced by `sendMessage` or `sendEventMessage` carries counter `n =
max(0, sendN − 1)` of the session state at the moment of transmission
(i.e. after `advanceSend`), which is the index of the just-consumed send
key — the stored session's `sendN` before the call; iterating
`sendMessage` publishes counters `sendN, sendN+1, ...`, so the first
message of a fresh session carries n = 0 and the k-th carries n = k−1. -/
theorem wire_counter_correct (st : EngineState) (chatId body : String)
    (replyTo : Option String) (nonce : Bytes) (messageId : String) (tNow : Nat)
    (chat : ChatRecord) (peerPubKey : String) (sess : SessionRecord)
    (eventPayload : InnerPayload) (k start : Nat)
    (hchat : st.chats.find? (fun item => item.id == chatId) = some chat)
    (hacc : chat.accepted = true)
    (hkind : chat.kind = ChatKind.dm)
    (hpeer : chat.participants.find? (fun key => key != st.chatKey) = some peerPubKey)
    (hsess : sessionsGet st.sessions chatId = some sess) :
    (sendMessage st chatId body replyTo nonce messageId tNow).published =
      st.published ++ [(dmTopic chatId, WireMsg.dmMessage
        { v := 1
          conversationId := chatId
          messageId
          fromPubKey := st.chatKey
          n := max 0 ((advanceSend sess).2.sendN - 1)
          nonce := bytesToBase64 nonce
          ciphertext := bytesToBase64 (secretbox
            (encodePayload (InnerPayload.text body replyTo)) nonce
            (advanceSend sess).1)
          timestamp := tNow })] ∧
    max 0 ((advanceSend sess).2.sendN - 1) = sess.sendN ∧
    (sendEventMessage st chat eventPayload nonce messageId tNow).published =
      st.published ++ [(dmTopic chat.id, WireMsg.dmMessage
        { v := 1
          conversationId := chat.id
          messageId
          fromPubKey := st.chatKey
          n := max 0 ((advanceSend sess).2.sendN - 1)
          nonce := bytesToBase64 nonce
          ciphertext := bytesToBase64 (secretbox (encodePayload eventPayload)
            nonce (advanceSend sess).1)
          timestamp := tNow })] ∧
    dmCounters (sendMessageTrace chatId body start k st).published =
      dmCounters st.published ++ List.range' sess.sendN k ∧
    (sess.sendN = 0 →
      dmCounters (sendMessageTrace chatId body start k st).published =
        dmCounters st.published ++ List.range k) := by
  have hid : chat.id = chatId := by
    have := List.find?_some hchat
    simpa using this
  have htrace := sendMessageTrace_counters chatId body k start st chat sess
    peerPubKey hchat hacc hkind hpeer hsess
  refine ⟨?_, ?_, ?_, htrace, ?_⟩
  · rw [sendMessage_spec st chatId body replyTo nonce messageId tNow chat
      peerPubKey sess hchat hacc hkind hpeer hsess]
  · show max 0 (sess.sendN + 1 - 1) = sess.sendN
    omega
  · rw [sendEventMessage_spec st chat eventPayload nonce messageId tNow
      peerPubKey sess hpeer (by rw [hid]; exact hsess)]
  · intro h0
    rw [htrace, h0, ← List.range_eq_range']

/-- Witness for `wire_counter_correct`: one text message sent from
`sampleState`'s fresh session carries the wire counter of the
just-consumed key. -/
theorem wire_counter_correct_witness :
    (sendMessage sampleState (conversationIdFromPubKeys "me" "peerB58") "hi" none
        (Bytes.random 5) "mid" 7).published =
      sampleState.published ++ [(dmTopic (conversationIdFromPubKeys "me" "peerB58"),
        WireMsg.dmMessage
        { v := 1
          conversationId := conversationIdFromPubKeys "me" "peerB58"
          messageId := "mid"
          fromPubKey := sampleState.chatKey
          n := max 0 ((advanceSend (mkFreshSession
            (conversationIdFromPubKeys "me" "peerB58") ChatKind.dm "peerB58"
            (Bytes.utf8 "sck") (Bytes.utf8 "rck"))).2.sendN - 1)
          nonce := bytesToBase64 (Bytes.random 5)
          ciphertext := bytesToBase64 (secretbox
            (encodePayload (InnerPayload.text "hi" none)) (Bytes.random 5)
            (advanceSend (mkFreshSession (conversationIdFromPubKeys "me" "peerB58")
              ChatKind.dm "peerB58" (Bytes.utf8 "sck") (Bytes.utf8 "rck"))).1)
          timestamp := 7 })] :=
  (wire_counter_correct sampleState (conversationIdFromPubKeys "me" "peerB58") "hi"
    none (Bytes.random 5) "mid" 7 sampleChat "peerB58"
    (mkFreshSession (conversationIdFromPubKeys "me" "peerB58") ChatKind.dm "peerB58"
      (Bytes.utf8 "sck") (Bytes.utf8 "rck"))
    (InnerPayload.event "typing") 3 0
    (by simp [sampleState, sampleChat, List.find?])
    rfl rfl
    (by simp [sampleState, sampleChat, List.find?])
    (by simp [sessionsGet, sampleState, List.find?])).1
